import Mathlib

/-
Verification of the streaming voice pipeline of the conversational-agent
repository.  The model is a shallow embedding of the TypeScript source:

* `splitTextIntoChunks`      — StreamingTTSService.splitTextIntoChunks
* `streamResponseEvents`     — the event trace of one StreamingTTSService.streamResponse run
* `runTwoStreams`            — interleaving semantics of two overlapping streamResponse
                               calls sharing the `activeStreams` set
* `makeRequest`              — TTSService.makeRequest retry loop
* `enqueueChunk`             — AudioQueueManager.enqueueChunk (client)
* `checkSilenceStep`         — one iteration of AudioRecorder.startSilenceDetection/checkSilence

Text is modelled as `List Char` (JavaScript string `length` counts UTF-16
units; for the character sets relevant here the two measures agree).
Floating-point constants of the voice-activity detector are modelled as
exact rationals; the claims under study concern branch structure, not
rounding.
-/

namespace ConvAgent

/-! ## Text chunker (StreamingTTSService.splitTextIntoChunks) -/

/-- `this.chunkSize = 300` characters per chunk. -/
def chunkSize : Nat := 300

/-- JavaScript `text.split(' ')`: split at every space character; adjacent
separators produce empty pieces, and `''.split(' ')` is `['']`. -/
def splitOnSpace : List Char → List (List Char)
  | [] => [[]]
  | c :: rest =>
    match splitOnSpace rest with
    | [] => [[c]]
    | w :: ws => if c = ' ' then [] :: w :: ws else (c :: w) :: ws

/-- JavaScript `word.match(new RegExp('.{1,k}', 'g')) || []`: cut a word into
consecutive pieces of at most `k` characters (for `k ≥ 1`); the empty word
yields no pieces (`match` returns `null`). -/
def splitEvery (k : Nat) : List Char → List (List Char)
  | [] => []
  | c :: rest => (c :: rest.take (k - 1)) :: splitEvery k (rest.drop (k - 1))
termination_by l => l.length
decreasing_by simp [List.length_drop]; omega

/-- One iteration of the `for (const word of words)` loop of
`splitTextIntoChunks`.  State: `(chunks, currentChunk)`. -/
def chunkStep (acc : List (List Char) × List Char) (word : List Char) :
    List (List Char) × List Char :=
  let chunks := acc.1
  let currentChunk := acc.2
  -- const potentialChunk = currentChunk ? `${currentChunk} ${word}` : word
  let potentialChunk := if currentChunk = [] then word else currentChunk ++ ' ' :: word
  if potentialChunk.length > chunkSize then
    if currentChunk ≠ [] then
      -- chunks.push(currentChunk); currentChunk = word
      (chunks ++ [currentChunk], word)
    else
      -- single word exceeds chunk size: push its character-level pieces
      (chunks ++ splitEvery chunkSize word, currentChunk)
  else
    (chunks, potentialChunk)

/-- The code after the loop of `splitTextIntoChunks`: push the last chunk,
merging it with the previous one when it is shorter than
`chunkSize * 0.3 = 90` characters and the merge stays within `chunkSize`. -/
def finalizeChunks (chunks : List (List Char)) (currentChunk : List Char) :
    List (List Char) :=
  if currentChunk = [] then chunks
  else if h : chunks ≠ [] ∧ currentChunk.length < 90 then
    let lastChunk := chunks.getLast h.1
    let combined := lastChunk ++ ' ' :: currentChunk
    if combined.length ≤ chunkSize then
      chunks.dropLast ++ [combined]
    else
      chunks.dropLast ++ [lastChunk, currentChunk]
  else
    chunks ++ [currentChunk]

/-- `StreamingTTSService.splitTextIntoChunks` (the variant with the
short-text branch, character-level word splitting and the trailing-segment
merge rule). -/
def splitTextIntoChunks (text : List Char) : List (List Char) :=
  if text.length ≤ chunkSize then [text]
  else
    let words := splitOnSpace text
    let acc := words.foldl chunkStep ([], [])
    finalizeChunks acc.1 acc.2

/-! ## Event trace of a single streamResponse run

`streamResponse` emits `stream:start`, then for each chunk `i` either a
`stream:chunk` payload (on synthesis success) or a `stream:error` with code
`CHUNK_ERROR` naming the chunk (on failure, the message shows the 1-based
number `i+1`), and finally `stream:end`.  The emitted AudioChunk carries
`id = streamId + '-' + i` (so `i` is the chunk position) and
`isLast = (i === chunks.length - 1)`.  Synthesis outcomes are abstracted by
a predicate `ok : Nat → Bool` (chunk `i` synthesizes successfully iff
`ok i`).  This trace is the behaviour of a run during which the
`activeStreams` membership check passes at every iteration, i.e. no
concurrent `streamResponse` call interferes (the interleaved model below
covers concurrency). -/

inductive StreamEvent where
  | streamStart : StreamEvent
  | streamChunk (i : Nat) (text : List Char) (isLast : Bool) : StreamEvent
  | chunkError (i : Nat) : StreamEvent
  | streamEnd : StreamEvent
  | streamFailure : StreamEvent
deriving DecidableEq, Repr

/-- The `for (let i = 0; ...)` loop body of `streamResponse`, emitting one
event per chunk; `n` is the total chunk count, `i` the index of the head of
`chunks`. -/
def processChunksFrom (ok : Nat → Bool) (n : Nat) : List (List Char) → Nat → List StreamEvent
  | [], _ => []
  | c :: rest, i =>
    (if ok i then [StreamEvent.streamChunk i c (decide (i = n - 1))]
     else [StreamEvent.chunkError i])
      ++ processChunksFrom ok n rest (i + 1)

/-- The full event trace of one uninterrupted `streamResponse` run. -/
def streamResponseEvents (text : List Char) (ok : Nat → Bool) : List StreamEvent :=
  let chunks := splitTextIntoChunks text
  StreamEvent.streamStart :: (processChunksFrom ok chunks.length chunks 0 ++ [StreamEvent.streamEnd])

/-- Positions of the emitted `stream:chunk` events, in emission order. -/
def chunkIdxs (evs : List StreamEvent) : List Nat :=
  evs.filterMap fun e =>
    match e with
    | StreamEvent.streamChunk i _ _ => some i
    | _ => none

/-- Positions of the emitted `stream:chunk` events that carry `isLast = true`. -/
def lastIdxs (evs : List StreamEvent) : List Nat :=
  evs.filterMap fun e =>
    match e with
    | StreamEvent.streamChunk i _ true => some i
    | _ => none

/-! ## Interleaving semantics of two overlapping streamResponse calls

`streamResponse` guards each loop iteration with
`if (!this.activeStreams.has(socket.id)) return;` and starts with
`if (this.activeStreams.has(socket.id)) { emit stream:error }` followed by
`this.activeStreams.add(socket.id)`; the `finally` block runs
`this.activeStreams.delete(socket.id)`.  For a single socket the shared
state is one boolean: `mem` (membership of `socket.id` in `activeStreams`).
A thread is suspended exactly at its `await` points: the synthesis call and
the 100ms inter-chunk delay.  Each step of a thread runs the synchronous
code between two suspension points. -/

inductive Tid where
  | a : Tid
  | b : Tid
deriving DecidableEq, Repr

inductive TPhase where
  | notStarted : TPhase
  | synthesizing (i : Nat) : TPhase
  | delaying (i : Nat) : TPhase
  | finished : TPhase
deriving DecidableEq, Repr

inductive SocketEvent where
  | start (tid : Tid) : SocketEvent
  | chunk (tid : Tid) (i : Nat) (text : List Char) (isLast : Bool) : SocketEvent
  | chunkErr (tid : Tid) (i : Nat) : SocketEvent
  | endEvt (tid : Tid) : SocketEvent
  | cancelNotice (tid : Tid) : SocketEvent
deriving DecidableEq, Repr

/-- The inputs of one `streamResponse` invocation: its text and the
synthesis outcome of each chunk. -/
structure StreamSpec where
  text : List Char
  ok : Nat → Bool

/-- One scheduler step of the thread `tid` running `streamResponse` with
input `sp`, given the shared `activeStreams` membership bit `mem`.
Returns the new membership bit, the thread's next phase and the events it
emitted during this synchronous block. -/
def threadStep (tid : Tid) (sp : StreamSpec) (mem : Bool) :
    TPhase → Bool × TPhase × List SocketEvent
  | TPhase.notStarted =>
    let chunks := splitTextIntoChunks sp.text
    let n := chunks.length
    -- if (this.activeStreams.has(socket.id)) emit stream:error ('Previous
    -- stream was canceled due to new request'); then activeStreams.add(...)
    let errs := if mem then [SocketEvent.cancelNotice tid] else []
    if n = 0 then
      -- loop body never runs; emit stream:end; finally: delete
      (false, TPhase.finished, errs ++ [SocketEvent.start tid, SocketEvent.endEvt tid])
    else
      -- emit stream:start; iteration 0: the membership check passes (the id
      -- was just added); suspend on the synthesis of chunk 0
      (true, TPhase.synthesizing 0, errs ++ [SocketEvent.start tid])
  | TPhase.synthesizing i =>
    let chunks := splitTextIntoChunks sp.text
    let n := chunks.length
    if sp.ok i then
      let ev := SocketEvent.chunk tid i (chunks.getD i []) (decide (i = n - 1))
      if i = n - 1 then
        -- last chunk: no delay; loop exits; emit stream:end; finally: delete
        (false, TPhase.finished, [ev, SocketEvent.endEvt tid])
      else
        -- suspend on the 100ms inter-chunk delay
        (mem, TPhase.delaying i, [ev])
    else
      -- catch: emit stream:error with code CHUNK_ERROR (the delay inside the
      -- try block is skipped), then the loop continues synchronously
      let ev := SocketEvent.chunkErr tid i
      if i = n - 1 then
        (false, TPhase.finished, [ev, SocketEvent.endEvt tid])
      else if mem then
        (mem, TPhase.synthesizing (i + 1), [ev])
      else
        -- membership check fails: return; finally: delete
        (false, TPhase.finished, [ev])
  | TPhase.delaying i =>
    -- the delay resolved; next iteration: membership check, then suspend on
    -- the synthesis of chunk i+1
    if mem then
      (mem, TPhase.synthesizing (i + 1), [])
    else
      (false, TPhase.finished, [])
  | TPhase.finished => (mem, TPhase.finished, [])

structure SystemState where
  mem : Bool
  threadA : TPhase
  threadB : TPhase
  trace : List SocketEvent
deriving DecidableEq, Repr

/-- Run the scheduled thread for one step. -/
def sysStep (spA spB : StreamSpec) (s : SystemState) (tid : Tid) : SystemState :=
  match tid with
  | Tid.a =>
    let r := threadStep Tid.a spA s.mem s.threadA
    { s with mem := r.1, threadA := r.2.1, trace := s.trace ++ r.2.2 }
  | Tid.b =>
    let r := threadStep Tid.b spB s.mem s.threadB
    { s with mem := r.1, threadB := r.2.1, trace := s.trace ++ r.2.2 }

/-- Execute two `streamResponse` calls on the same socket under a schedule
(the list of thread ids picked at each suspension point). -/
def runTwoStreams (spA spB : StreamSpec) (sched : List Tid) : SystemState :=
  sched.foldl (sysStep spA spB) ⟨false, TPhase.notStarted, TPhase.notStarted, []⟩

/-! ## TTSService.makeRequest retry loop

`makeRequest` loops `while (retryCount <= maxRetries)`.  Each attempt makes
one HTTP call; its outcome is abstracted by `resp : Nat → TTSOutcome`
(the outcome of the attempt executed with the current `retryCount`).  On an
axios error it throws immediately for HTTP 401 (`UNAUTHORIZED`) and 400
(`INVALID_INPUT`); for the retryable conditions (`ECONNABORTED`,
`ETIMEDOUT`, `ERR_BAD_RESPONSE`, an aborted-stream message, or status
429/500/503) it increments `retryCount`, sleeps
`retryDelay * 2 ** (retryCount - 1)` ms and continues, but only while
`retryCount < maxRetries`; any other error is rethrown. -/

def maxRetries : Nat := 3

def retryDelay : Nat := 1000

inductive TTSOutcome where
  | success : TTSOutcome
  | httpStatus (status : Nat) : TTSOutcome
  | connAborted : TTSOutcome
  | timedOut : TTSOutcome
  | badResponse : TTSOutcome
  | streamAbortedMsg : TTSOutcome
  | nonAxiosError : TTSOutcome
deriving DecidableEq, Repr

inductive TTSError where
  | unauthorized : TTSError
  | invalidInput : TTSError
  | rethrown (o : TTSOutcome) : TTSError
  | retriesExhausted : TTSError
deriving DecidableEq, Repr

/-- The retry condition of `makeRequest` (without the `retryCount <
maxRetries` conjunct): error code ECONNABORTED/ETIMEDOUT/ERR_BAD_RESPONSE,
a 'stream has been aborted' message, or HTTP status 429, 500 or 503.
`nonAxiosError` models an error for which `axios.isAxiosError` is false, so
the whole status/retry analysis is skipped. -/
def isRetryable : TTSOutcome → Bool
  | TTSOutcome.connAborted => true
  | TTSOutcome.timedOut => true
  | TTSOutcome.badResponse => true
  | TTSOutcome.streamAbortedMsg => true
  | TTSOutcome.httpStatus s => decide (s = 429) || decide (s = 500) || decide (s = 503)
  | _ => false

/-- Result of a `makeRequest` call: `ok` is a returned buffer, `fail` a
thrown error. -/
inductive ReqResult where
  | ok : ReqResult
  | fail (e : TTSError) : ReqResult
deriving DecidableEq, Repr

structure RequestRun where
  result : ReqResult
  attempts : Nat
  delays : List Nat
deriving DecidableEq, Repr

/-- The `while (retryCount <= maxRetries)` loop, unrolled on fuel.  The
loop can only exit through `return` or `throw` (the counter is incremented
only under `retryCount < maxRetries`), so with fuel `maxRetries + 1` the
fuel never runs out; the fuel-0 case corresponds to the unreachable
`throw` after the loop.  `attempts` counts executed HTTP calls (absolute),
`delays` lists the back-off sleeps in order. -/
def makeRequestGo (resp : Nat → TTSOutcome) : Nat → Nat → RequestRun
  | _, 0 => ⟨ReqResult.fail TTSError.retriesExhausted, 0, []⟩
  | retryCount, fuel + 1 =>
    match resp retryCount with
    | TTSOutcome.success => ⟨ReqResult.ok, retryCount + 1, []⟩
    | o =>
      if o = TTSOutcome.httpStatus 401 then
        ⟨ReqResult.fail TTSError.unauthorized, retryCount + 1, []⟩
      else if o = TTSOutcome.httpStatus 400 then
        ⟨ReqResult.fail TTSError.invalidInput, retryCount + 1, []⟩
      else if isRetryable o ∧ retryCount < maxRetries then
        let d := retryDelay * 2 ^ (retryCount + 1 - 1)
        let r := makeRequestGo resp (retryCount + 1) fuel
        ⟨r.result, r.attempts, d :: r.delays⟩
      else
        ⟨ReqResult.fail (TTSError.rethrown o), retryCount + 1, []⟩

/-- `TTSService.makeRequest`, starting at `retryCount = 0`. -/
def makeRequest (resp : Nat → TTSOutcome) : RequestRun :=
  makeRequestGo resp 0 (maxRetries + 1)

/-! ## AudioQueueManager.enqueueChunk (client)

The client-side queue manager.  `enqueueChunk` runs inside one `try` block:
it throws when `queue.length >= config.maxQueueSize`, returns early on a
duplicate id, converts a string `audio` payload with `urlToBlob` (which may
throw), then pushes the chunk and starts playback when idle.  The `catch`
reports every failure through `handleError` with code `'QUEUE_FULL'`;
nothing is rethrown.  `urlToBlob` is an external fetch whose success is
abstracted by the `convOk` argument.  The `Blob`-vs-string distinction of
the `audio` payload is not modelled (both are the payload string here). -/

structure QChunk where
  id : String
  text : String
  audio : String
  isLast : Bool
  timestamp : Nat
deriving DecidableEq, Repr

structure QueueState where
  queue : List QChunk
  maxQueueSize : Nat
  isPlaying : Bool
deriving DecidableEq, Repr

/-- `DEFAULT_STREAMING_CONFIG.maxQueueSize`. -/
def defaultMaxQueueSize : Nat := 10

inductive QFailure where
  | queueFullThrow : QFailure
  | conversionFailure : QFailure
deriving DecidableEq, Repr

inductive QErrCode where
  | QUEUE_FULL : QErrCode
  | PLAYBACK_ERROR : QErrCode
deriving DecidableEq, Repr

structure QErr where
  code : QErrCode
  cause : QFailure
deriving DecidableEq, Repr

/-- The body of the `try` block of `enqueueChunk`: `Except.error` is a
thrown exception, `Except.ok none` the duplicate early return, and
`Except.ok (some s)` a completed insertion. -/
def enqueueBody (s : QueueState) (c : QChunk) (convOk : Bool) :
    Except QFailure (Option QueueState) :=
  if s.queue.length ≥ s.maxQueueSize then
    Except.error QFailure.queueFullThrow
  else if s.queue.any (fun q => q.id = c.id) then
    Except.ok none
  else if convOk = false then
    Except.error QFailure.conversionFailure
  else
    Except.ok (some { s with
      queue := s.queue ++ [c],
      -- if (!this.isPlaying) await this.startPlayback()
      isPlaying := s.isPlaying || (s.queue ++ [c]).length > 0 })

/-- `AudioQueueManager.enqueueChunk`: the `catch` funnels every thrown
error into `handleError({ code: 'QUEUE_FULL', ... })`; the promise itself
always resolves (modelled by totality of this function). -/
def enqueueChunk (s : QueueState) (c : QChunk) (convOk : Bool) :
    QueueState × List QErr :=
  match enqueueBody s c convOk with
  | Except.ok none => (s, [])
  | Except.ok (some t) => (t, [])
  | Except.error cause => (s, [⟨QErrCode.QUEUE_FULL, cause⟩])

/-- The `onended` handler installed by `playNextChunk`: when the finished
chunk is still at the front of the queue, shift it off; keep playing iff
chunks remain. -/
def onChunkEnded (s : QueueState) (c : QChunk) : QueueState :=
  let q :=
    match s.queue with
    | q0 :: rest => if q0.id = c.id then rest else s.queue
    | [] => s.queue
  { s with queue := q, isPlaying := q.length > 0 }

/-! ## Voice-activity detection (AudioRecorder.startSilenceDetection)

One iteration of the `checkSilence` polling loop, on exact rationals.
The loop reads the current frequency-magnitude average, initializes the
baseline `lastAudioLevel` on first use, derives
`silenceThreshold = max(6, baseline * 0.15)` and
`speechThreshold = silenceThreshold * 1.8`, flags speech, and then either
arms the silence timer (sample below the silence threshold after detected
speech) or updates the baseline by
`average * 0.3 + lastAudioLevel * 0.7` and disarms the timer.  The
asynchronous firing of the armed timer (auto stop of the recording) is not
part of this per-sample step. -/

def minSpeechLength : Rat := 500

def silenceThresholdOf (baseline : Rat) : Rat :=
  max 6 (baseline * (3 / 20))

def speechThresholdOf (baseline : Rat) : Rat :=
  silenceThresholdOf baseline * (9 / 5)

structure VADState where
  lastAudioLevel : Rat
  hasDetectedSpeech : Bool
  silenceTimerArmed : Bool
  speechStartTime : Option Rat
deriving DecidableEq, Repr

/-- One `checkSilence` iteration at time `now` on the sample `average`. -/
def checkSilenceStep (s : VADState) (average : Rat) (now : Rat) : VADState :=
  -- if (this.lastAudioLevel === 0) this.lastAudioLevel = average
  let lvl := if s.lastAudioLevel = 0 then average else s.lastAudioLevel
  let silenceThreshold := silenceThresholdOf lvl
  let speechThreshold := speechThresholdOf lvl
  let isSilent := decide (average < silenceThreshold)
  let hasSpeech := decide (average > speechThreshold)
  -- if (hasSpeech) { record speech start; clear a pending silence timer }
  let hds := s.hasDetectedSpeech || hasSpeech
  let sst := if hasSpeech && !s.hasDetectedSpeech then some now else s.speechStartTime
  let timer := if hasSpeech then false else s.silenceTimerArmed
  if isSilent && hds then
    -- silence after detected speech: maybe arm the timer; the baseline is
    -- left untouched on this branch
    let speechDuration := match sst with | some t => now - t | none => 0
    let timerArmed := if !timer && decide (speechDuration ≥ minSpeechLength) then true else timer
    { lastAudioLevel := lvl, hasDetectedSpeech := hds,
      silenceTimerArmed := timerArmed, speechStartTime := sst }
  else
    -- update the baseline with decay and clear any pending timer
    { lastAudioLevel := if lvl = 0 then average else average * (3 / 10) + lvl * (7 / 10),
      hasDetectedSpeech := hds, silenceTimerArmed := false, speechStartTime := sst }

/-! ## Concrete inputs used by the theorems below -/

/-- A 403-character text whose chunking yields exactly two chunks of 201
characters each. -/
def longText : List Char :=
  List.replicate 201 'a' ++ ' ' :: List.replicate 201 'b'

/-- A short word followed by a 301-character word. -/
def overlongWordText : List Char :=
  'a' :: ' ' :: List.replicate 301 'x'

def helloText : List Char := "hello".data

def hiText : List Char := "hi".data

def sampleChunk : QChunk := ⟨"s-0", "hello", "data:audio/wav;base64,AA==", false, 0⟩

def emptyQueue : QueueState := ⟨[], defaultMaxQueueSize, false⟩

def fullQueue : QueueState :=
  ⟨(List.range defaultMaxQueueSize).map
      (fun i => ⟨"s-" ++ toString i, "t", "u", false, 0⟩),
    defaultMaxQueueSize, true⟩

/-! ## Helper lemmas: chunker length bounds -/

theorem splitEvery_length_le (k : Nat) (hk : 0 < k) :
    ∀ (n : Nat) (l : List Char), l.length ≤ n → ∀ p ∈ splitEvery k l, p.length ≤ k := by
  intro n
  induction n with
  | zero =>
    intro l hl p hp
    have : l = [] := List.eq_nil_of_length_eq_zero (Nat.le_zero.1 hl)
    subst this
    simp [splitEvery] at hp
  | succ n ih =>
    intro l hl p hp
    match l with
    | [] => simp [splitEvery] at hp
    | c :: rest =>
      rw [splitEvery] at hp
      rcases List.mem_cons.1 hp with h | h
      · subst h
        simp only [List.length_cons, List.length_take]
        omega
      · refine ih (rest.drop (k - 1)) ?_ p h
        simp only [List.length_drop]
        simp only [List.length_cons] at hl
        omega

/-- Invariant of the word loop: every closed chunk and the running chunk
are within the bound. -/
def BoundedAcc (p : List (List Char) × List Char) : Prop :=
  (∀ c ∈ p.1, c.length ≤ chunkSize) ∧ p.2.length ≤ chunkSize

theorem chunkStep_bounded (chs : List (List Char)) (cur w : List Char)
    (h1 : ∀ c ∈ chs, c.length ≤ chunkSize) (h2 : cur.length ≤ chunkSize)
    (hw : w.length ≤ chunkSize) : BoundedAcc (chunkStep (chs, cur) w) := by
  by_cases hcur : cur = []
  · subst hcur
    have hstep : chunkStep (chs, ([] : List Char)) w =
        if w.length > chunkSize then (chs ++ splitEvery chunkSize w, ([] : List Char))
        else (chs, w) := rfl
    rw [hstep]
    unfold BoundedAcc
    split_ifs with h
    · dsimp only
      refine ⟨?_, by simp⟩
      intro c hc
      rcases List.mem_append.1 hc with hm | hm
      · exact h1 c hm
      · exact splitEvery_length_le chunkSize (by decide) w.length w le_rfl c hm
    · exact ⟨h1, hw⟩
  · have hstep : chunkStep (chs, cur) w =
        if (cur ++ ' ' :: w).length > chunkSize then (chs ++ [cur], w)
        else (chs, cur ++ ' ' :: w) := by
      unfold chunkStep
      dsimp only
      rw [if_neg hcur, if_pos hcur]
    rw [hstep]
    unfold BoundedAcc
    split_ifs with h
    · dsimp only
      refine ⟨?_, hw⟩
      intro c hc
      rcases List.mem_append.1 hc with hm | hm
      · exact h1 c hm
      · rw [List.mem_singleton.1 hm]; exact h2
    · exact ⟨h1, Nat.le_of_not_lt h⟩

theorem foldl_chunkStep_bounded (ws : List (List Char))
    (hw : ∀ w ∈ ws, w.length ≤ chunkSize) :
    ∀ (p : List (List Char) × List Char), BoundedAcc p →
      BoundedAcc (ws.foldl chunkStep p) := by
  induction ws with
  | nil => intro p hp; simpa using hp
  | cons w rest ih =>
    intro p hp
    rw [List.foldl_cons]
    obtain ⟨chs, cur⟩ := p
    exact ih (fun x hx => hw x (List.mem_cons_of_mem _ hx))
      (chunkStep (chs, cur) w)
      (chunkStep_bounded chs cur w hp.1 hp.2 (hw w (List.mem_cons_self w rest)))

theorem finalizeChunks_bounded (chunks : List (List Char)) (cur : List Char)
    (h1 : ∀ c ∈ chunks, c.length ≤ chunkSize) (h2 : cur.length ≤ chunkSize) :
    ∀ c ∈ finalizeChunks chunks cur, c.length ≤ chunkSize := by
  intro c hc
  unfold finalizeChunks at hc
  by_cases hcur : cur = []
  · rw [if_pos hcur] at hc
    exact h1 c hc
  · rw [if_neg hcur] at hc
    by_cases hmerge : chunks ≠ [] ∧ cur.length < 90
    · rw [dif_pos hmerge] at hc
      dsimp only at hc
      have hdrop : ∀ x ∈ chunks.dropLast, x.length ≤ chunkSize :=
        fun x hx => h1 x ((List.dropLast_sublist chunks).subset hx)
      have hlast : (chunks.getLast hmerge.1).length ≤ chunkSize :=
        h1 _ (List.getLast_mem hmerge.1)
      split at hc
      · next hcomb =>
        rcases List.mem_append.1 hc with h | h
        · exact hdrop c h
        · rw [List.mem_singleton.1 h]; exact hcomb
      · rcases List.mem_append.1 hc with h | h
        · exact hdrop c h
        · rcases List.mem_cons.1 h with h | h
          · rw [h]; exact hlast
          · rw [List.mem_singleton.1 h]; exact h2
    · rw [dif_neg hmerge] at hc
      rcases List.mem_append.1 hc with h | h
      · exact h1 c h
      · rw [List.mem_singleton.1 h]; exact h2

/-! ## C5 and C6 -/

set_option maxRecDepth 20000 in
/-- C5 (counterexample): on a text consisting of a one-character word
followed by a 301-character word, `splitTextIntoChunks` emits the over-long
word as a single chunk of 301 characters — a chunk exceeding `chunkSize`,
which the claim rules out. -/
theorem c5_counterexample :
    (splitTextIntoChunks overlongWordText).any (fun c => decide (chunkSize < c.length)) = true := by
  decide

/-- C5 (amended): every chunk returned by `splitTextIntoChunks` has length
at most `chunkSize` provided every space-separated word of the text has
length at most `chunkSize`; the character-level split of an over-long word
happens only when the accumulating chunk is empty, so an over-long word
preceded by accumulated words is emitted whole, as a single chunk longer
than `chunkSize`. -/
theorem c5_chunk_length_le (text : List Char)
    (hw : ∀ w ∈ splitOnSpace text, w.length ≤ chunkSize) :
    ∀ c ∈ splitTextIntoChunks text, c.length ≤ chunkSize := by
  intro c hc
  unfold splitTextIntoChunks at hc
  split at hc
  · next hshort => rw [List.mem_singleton.1 hc]; exact hshort
  · dsimp only at hc
    have hacc : BoundedAcc ((splitOnSpace text).foldl chunkStep ([], [])) :=
      foldl_chunkStep_bounded (splitOnSpace text) hw ([], []) ⟨by simp, by simp [chunkSize]⟩
    exact finalizeChunks_bounded _ _ hacc.1 hacc.2 c hc

theorem c5_chunk_length_le_witness :
    (splitTextIntoChunks ("ab cd".data)).all (fun c => decide (c.length ≤ chunkSize)) = true := by
  have h := c5_chunk_length_le ("ab cd".data) (by decide)
  exact List.all_eq_true.mpr fun c hc => decide_eq_true (h c hc)

/-- C6 (counterexample): on the empty string the short-text branch returns
`[text]`, i.e. a list holding one empty chunk — not an empty list. -/
theorem c6_counterexample :
    splitTextIntoChunks [] = [[]] ∧ splitTextIntoChunks [] ≠ [] := by
  decide

/-- C6 (amended): `splitTextIntoChunks` applied to the empty string returns
a single empty chunk (the list `[""]`), not an empty list; it raises no
exception for any input (the embedding is a total function). -/
theorem c6_empty_input : splitTextIntoChunks [] = [[]] := by
  decide

/-! ## Helper lemmas: the event trace of a solo streamResponse run -/

theorem chunkIdxs_append (xs ys : List StreamEvent) :
    chunkIdxs (xs ++ ys) = chunkIdxs xs ++ chunkIdxs ys := by
  simp [chunkIdxs, List.filterMap_append]

theorem lastIdxs_append (xs ys : List StreamEvent) :
    lastIdxs (xs ++ ys) = lastIdxs xs ++ lastIdxs ys := by
  simp [lastIdxs, List.filterMap_append]

theorem chunkIdxs_processChunksFrom (ok : Nat → Bool) (n : Nat) :
    ∀ (cs : List (List Char)) (i : Nat),
      chunkIdxs (processChunksFrom ok n cs i) = (List.range' i cs.length).filter ok := by
  intro cs
  induction cs with
  | nil => intro i; simp [processChunksFrom, chunkIdxs]
  | cons c rest ih =>
    intro i
    rw [processChunksFrom, chunkIdxs_append, ih (i + 1), List.length_cons,
      List.range'_succ]
    by_cases h : ok i = true
    · simp [chunkIdxs, h, List.filter_cons]
    · simp only [Bool.not_eq_true] at h
      simp [chunkIdxs, h, List.filter_cons]

theorem mem_chunkIdxs_processChunksFrom (ok : Nat → Bool) (n : Nat)
    (cs : List (List Char)) (i j : Nat) :
    j ∈ chunkIdxs (processChunksFrom ok n cs i) ↔
      i ≤ j ∧ j < i + cs.length ∧ ok j = true := by
  rw [chunkIdxs_processChunksFrom, List.mem_filter, List.mem_range'_1]
  tauto

theorem chunkError_mem_processChunksFrom (ok : Nat → Bool) (n : Nat) :
    ∀ (cs : List (List Char)) (i j : Nat), i ≤ j → j < i + cs.length →
      ok j = false → StreamEvent.chunkError j ∈ processChunksFrom ok n cs i := by
  intro cs
  induction cs with
  | nil => intro i j h1 h2 _; simp at h2; omega
  | cons c rest ih =>
    intro i j h1 h2 h3
    rw [processChunksFrom]
    rcases Nat.eq_or_lt_of_le h1 with he | hlt
    · subst he
      simp [h3]
    · refine List.mem_append_right _ (ih (i + 1) j hlt ?_ h3)
      simp only [List.length_cons] at h2
      omega

theorem lastIdxs_processChunksFrom (ok : Nat → Bool) (n : Nat) :
    ∀ (cs : List (List Char)) (i : Nat), cs ≠ [] → i + cs.length = n →
      lastIdxs (processChunksFrom ok n cs i) =
        if ok (n - 1) = true then [n - 1] else [] := by
  intro cs
  induction cs with
  | nil => intro i h; exact absurd rfl h
  | cons c rest ih =>
    intro i _ hn
    rw [processChunksFrom, lastIdxs_append]
    cases rest with
    | nil =>
      have hi : i = n - 1 := by simp at hn; omega
      subst hi
      by_cases h : ok (n - 1) = true
      · simp [h, lastIdxs, processChunksFrom]
      · simp only [Bool.not_eq_true] at h
        simp [h, lastIdxs, processChunksFrom]
    | cons c2 rest2 =>
      have hi : i ≠ n - 1 := by
        simp only [List.length_cons] at hn
        omega
      have hd : decide (i = n - 1) = false := by simp [hi]
      have hrec := ih (i + 1) (by simp) (by simp only [List.length_cons] at hn ⊢; omega)
      have hhead : lastIdxs
          (if ok i = true then [StreamEvent.streamChunk i c (decide (i = n - 1))]
           else [StreamEvent.chunkError i]) = [] := by
        by_cases h : ok i = true
        · simp [h, lastIdxs, hd]
        · simp only [Bool.not_eq_true] at h
          simp [h, lastIdxs]
      rw [hhead, List.nil_append, hrec]

theorem chunkIdxs_streamResponseEvents (text : List Char) (ok : Nat → Bool) :
    chunkIdxs (streamResponseEvents text ok) =
      (List.range (splitTextIntoChunks text).length).filter ok := by
  have h0 : chunkIdxs [StreamEvent.streamEnd] = [] := by simp [chunkIdxs]
  have hstart : ∀ evs, chunkIdxs (StreamEvent.streamStart :: evs) = chunkIdxs evs := by
    intro evs; simp [chunkIdxs]
  rw [streamResponseEvents]
  rw [hstart, chunkIdxs_append, h0, List.append_nil, chunkIdxs_processChunksFrom,
    List.range_eq_range']

theorem lastIdxs_streamResponseEvents (text : List Char) (ok : Nat → Bool)
    (h : splitTextIntoChunks text ≠ []) :
    lastIdxs (streamResponseEvents text ok) =
      if ok ((splitTextIntoChunks text).length - 1) = true
      then [(splitTextIntoChunks text).length - 1] else [] := by
  have h0 : lastIdxs [StreamEvent.streamEnd] = [] := by simp [lastIdxs]
  have hstart : ∀ evs, lastIdxs (StreamEvent.streamStart :: evs) = lastIdxs evs := by
    intro evs; simp [lastIdxs]
  rw [streamResponseEvents]
  rw [hstart, lastIdxs_append, h0, List.append_nil,
    lastIdxs_processChunksFrom ok (splitTextIntoChunks text).length
      (splitTextIntoChunks text) 0 h (by omega)]

/-! ## C2 and C3 -/

/-- C2 (counterexample): on the non-empty input "hello" (one chunk) with a
synthesis failure of that chunk, `streamResponse` emits a `CHUNK_ERROR` and
no `stream:chunk` at all — in particular no emitted AudioChunk carries
`isLast = true`, whereas the claim requires exactly one in every run. -/
theorem c2_counterexample :
    streamResponseEvents helloText (fun _ => false) =
      [StreamEvent.streamStart, StreamEvent.chunkError 0, StreamEvent.streamEnd] ∧
    lastIdxs (streamResponseEvents helloText (fun _ => false)) = [] := by
  constructor
  · decide
  · decide

/-- C2 (amended): in every `streamResponse` run the emitted chunk positions
are strictly increasing and are exactly the positions whose synthesis
succeeded (so the sequence starts at 0 only when chunk 0 succeeds); an
emitted AudioChunk with `isLast = true` exists iff the synthesis of the
final chunk succeeds, in which case it is unique and sits at the highest
position. -/
theorem c2_stream_ordering (text : List Char) (ok : Nat → Bool)
    (h : splitTextIntoChunks text ≠ []) :
    (chunkIdxs (streamResponseEvents text ok)).Pairwise (· < ·) ∧
    chunkIdxs (streamResponseEvents text ok) =
      (List.range (splitTextIntoChunks text).length).filter ok ∧
    lastIdxs (streamResponseEvents text ok) =
      (if ok ((splitTextIntoChunks text).length - 1) = true
       then [(splitTextIntoChunks text).length - 1] else []) := by
  refine ⟨?_, chunkIdxs_streamResponseEvents text ok,
    lastIdxs_streamResponseEvents text ok h⟩
  rw [chunkIdxs_streamResponseEvents]
  exact List.Pairwise.filter ok
    (List.pairwise_lt_range (splitTextIntoChunks text).length)

theorem c2_stream_ordering_witness :
    lastIdxs (streamResponseEvents hiText (fun _ => true)) = [0] := by
  exact (c2_stream_ordering hiText (fun _ => true) (by decide)).2.2.trans (by decide)

/-- C3 (confirmed): in a run in which synthesis of chunk `i` fails (and no
concurrent call cancels the stream), a `stream:error` with code
`CHUNK_ERROR` for chunk `i` is emitted (the code formats its message with
the 1-based number `i+1`), every later chunk whose synthesis succeeds is
still emitted, and `stream:end` is emitted; a per-chunk failure never
terminates the stream. -/
theorem c3_chunk_failure_continues (text : List Char) (ok : Nat → Bool) (i : Nat)
    (hi : i < (splitTextIntoChunks text).length) (hfail : ok i = false) :
    StreamEvent.chunkError i ∈ streamResponseEvents text ok ∧
    StreamEvent.streamEnd ∈ streamResponseEvents text ok ∧
    ∀ j, i < j → j < (splitTextIntoChunks text).length → ok j = true →
      j ∈ chunkIdxs (streamResponseEvents text ok) := by
  refine ⟨?_, ?_, ?_⟩
  · rw [streamResponseEvents]
    refine List.mem_cons_of_mem _ (List.mem_append_left _ ?_)
    exact chunkError_mem_processChunksFrom ok (splitTextIntoChunks text).length
      (splitTextIntoChunks text) 0 i (Nat.zero_le i) (by omega) hfail
  · rw [streamResponseEvents]
    exact List.mem_cons_of_mem _ (List.mem_append_right _ (List.mem_singleton.2 rfl))
  · intro j _ hj hok
    rw [chunkIdxs_streamResponseEvents]
    rw [List.mem_filter, List.mem_range]
    exact ⟨hj, hok⟩

theorem c3_chunk_failure_continues_witness :
    StreamEvent.chunkError 0 ∈ streamResponseEvents helloText (fun _ => false) :=
  (c3_chunk_failure_continues helloText (fun _ => false) 0 (by decide) rfl).1

/-! ## C1 -/

set_option maxRecDepth 40000 in
/-- C1 (behaviour at the failing input): stream A (two chunks) starts and
suspends on the synthesis of chunk 0; stream B (one chunk) starts on the
same socket — the code only logs a cancellation, emits a notice and
re-adds `socket.id` to the `activeStreams` set (a no-op), without marking A
cancelled; when A's synthesis resolves, A's membership check still passes
and A emits its `stream:chunk` AFTER B's `stream:start`.  The claim (and
the spec's cancellation guarantee) says this chunk must be suppressed. -/
theorem c1_chunk_after_new_stream_start :
    (runTwoStreams ⟨longText, fun _ => true⟩ ⟨hiText, fun _ => true⟩
        [Tid.a, Tid.b, Tid.a]).trace =
      [SocketEvent.start Tid.a, SocketEvent.cancelNotice Tid.b,
       SocketEvent.start Tid.b,
       SocketEvent.chunk Tid.a 0 (List.replicate 201 'a') false] ∧
    ((runTwoStreams ⟨longText, fun _ => true⟩ ⟨hiText, fun _ => true⟩
        [Tid.a, Tid.b, Tid.a]).trace.drop 3).any
      (fun e => match e with
        | SocketEvent.chunk Tid.a _ _ _ => true
        | _ => false) = true := by
  constructor
  · decide
  · decide

/-! ## C4 -/

/-- C4 (confirmed): if every attempt fails with one of the retryable
conditions (timeout, aborted connection, bad response, or HTTP
429/500/503), `makeRequest` performs exactly `maxRetries + 1 = 4` attempts
and sleeps `1000 * 2 ^ (k - 1)` ms before the k-th retry
(`[1000, 2000, 4000]`), then fails; an HTTP 401 or 400 response makes it
fail on the first attempt with no retry and no delay. -/
theorem c4_retry_policy :
    (∀ o : TTSOutcome, isRetryable o = true →
      makeRequest (fun _ => o) =
        ⟨ReqResult.fail (TTSError.rethrown o), 4, [1000, 2000, 4000]⟩) ∧
    makeRequest (fun _ => TTSOutcome.httpStatus 401) =
      ⟨ReqResult.fail TTSError.unauthorized, 1, []⟩ ∧
    makeRequest (fun _ => TTSOutcome.httpStatus 400) =
      ⟨ReqResult.fail TTSError.invalidInput, 1, []⟩ := by
  refine ⟨?_, by decide, by decide⟩
  intro o h
  cases o with
  | success => simp [isRetryable] at h
  | httpStatus s =>
    simp only [isRetryable, Bool.or_eq_true, decide_eq_true_eq] at h
    rcases h with (h | h) | h <;> subst h <;> decide
  | connAborted => decide
  | timedOut => decide
  | badResponse => decide
  | streamAbortedMsg => decide
  | nonAxiosError => simp [isRetryable] at h

theorem c4_retry_policy_witness :
    makeRequest (fun _ => TTSOutcome.httpStatus 503) =
      ⟨ReqResult.fail (TTSError.rethrown (TTSOutcome.httpStatus 503)), 4,
        [1000, 2000, 4000]⟩ :=
  c4_retry_policy.1 (TTSOutcome.httpStatus 503) (by decide)

/-! ## C7 -/

/-- C7 (counterexample): enqueue `sampleChunk` into an empty queue, let it
finish playing (the `onended` handler removes it from the queue), then
enqueue a chunk with the same id again: the duplicate check only scans the
current queue, so the chunk is inserted and becomes playable a second
time — against the claim that a replayed id (including one already played
and removed within the same stream) yields exactly one playable instance. -/
theorem c7_counterexample :
    (enqueueChunk emptyQueue sampleChunk true).1.queue = [sampleChunk] ∧
    onChunkEnded (enqueueChunk emptyQueue sampleChunk true).1 sampleChunk =
      ⟨[], defaultMaxQueueSize, false⟩ ∧
    (enqueueChunk
        (onChunkEnded (enqueueChunk emptyQueue sampleChunk true).1 sampleChunk)
        sampleChunk true).1.queue = [sampleChunk] := by
  refine ⟨?_, ?_, ?_⟩ <;> decide

/-- C7 (amended): duplicate suppression holds only while the first instance
is still in the queue: enqueuing a chunk whose id is present in a non-full
queue is a no-op (no state change, no error); once the first instance has
been played and removed, the same id is enqueued — and played — again,
because the manager keeps no memory of played ids. -/
theorem c7_duplicate_in_queue_noop (s : QueueState) (c : QChunk) (convOk : Bool)
    (hroom : s.queue.length < s.maxQueueSize)
    (hdup : s.queue.any (fun q => q.id = c.id) = true) :
    enqueueChunk s c convOk = (s, []) := by
  unfold enqueueChunk enqueueBody
  rw [if_neg (by omega), if_pos hdup]

theorem c7_duplicate_in_queue_noop_witness :
    enqueueChunk ⟨[sampleChunk], defaultMaxQueueSize, true⟩ sampleChunk true =
      (⟨[sampleChunk], defaultMaxQueueSize, true⟩, []) :=
  c7_duplicate_in_queue_noop ⟨[sampleChunk], defaultMaxQueueSize, true⟩ sampleChunk
    true (by decide) (by decide)

/-! ## C8 -/

/-- C8 (confirmed): when the queue already holds `maxQueueSize` chunks (or
more), `enqueueChunk` reports a `QUEUE_FULL` error through the error
callback and returns the state completely unchanged — same queue contents
in the same order, no partial insertion. -/
theorem c8_queue_full_atomic (s : QueueState) (c : QChunk) (convOk : Bool)
    (hfull : s.maxQueueSize ≤ s.queue.length) :
    enqueueChunk s c convOk =
      (s, [⟨QErrCode.QUEUE_FULL, QFailure.queueFullThrow⟩]) := by
  unfold enqueueChunk enqueueBody
  rw [if_pos hfull]

theorem c8_queue_full_atomic_witness :
    enqueueChunk fullQueue sampleChunk true =
      (fullQueue, [⟨QErrCode.QUEUE_FULL, QFailure.queueFullThrow⟩]) :=
  c8_queue_full_atomic fullQueue sampleChunk true (by decide)

/-! ## C10 -/

/-- C10 (confirmed): `enqueueChunk` never throws or rejects — the embedding
is a total function of the queue state, the chunk and the outcome of the
payload conversion — and every error it reports through the `onError`
callback carries the code `QUEUE_FULL`, including the case where the
underlying cause is a payload-conversion failure rather than a full
queue. -/
theorem c10_enqueue_errors_all_queue_full (s : QueueState) (c : QChunk)
    (convOk : Bool) :
    ((enqueueChunk s c convOk).2).all
      (fun e => decide (e.code = QErrCode.QUEUE_FULL)) = true := by
  unfold enqueueChunk
  split <;> simp

/-! ## C9 -/

/-- C9 (counterexample): a two-sample capture session starting from the
reset state.  The first sample (level 10) initializes the baseline to 10;
the second sample (level 1000) exceeds the speech threshold
`speechThresholdOf 10 = 10.8`, i.e. it qualifies as speech — yet the code
updates the baseline with it (`1000 * 0.3 + 10 * 0.7 = 307`), because the
baseline update sits on the `else` of the silent-after-speech branch, not
on a not-speech condition as the claim states. -/
theorem c9_counterexample :
    speechThresholdOf 10 < 1000 ∧
    checkSilenceStep (checkSilenceStep ⟨0, false, false, none⟩ 10 0) 1000 1 =
      ⟨307, true, false, some 1⟩ := by
  constructor
  · norm_num [speechThresholdOf, silenceThresholdOf]
  · have h1 : checkSilenceStep ⟨0, false, false, none⟩ 10 0 =
        ⟨10, false, false, none⟩ := by
      norm_num [checkSilenceStep, silenceThresholdOf, speechThresholdOf, max_def]
    rw [h1]
    norm_num [checkSilenceStep, silenceThresholdOf, speechThresholdOf, max_def]

/-- C9 (amended): the baseline is updated by
`baseline = 0.3 * sample + 0.7 * baseline` for every sample EXCEPT those
below the silence threshold after speech has been detected (the branch that
arms the silence timer); in particular a sample above the speech threshold
does update the baseline. -/
theorem c9_baseline_update (s : VADState) (average now : Rat)
    (hlvl : s.lastAudioLevel ≠ 0) :
    (average < silenceThresholdOf s.lastAudioLevel ∧ s.hasDetectedSpeech = true →
      (checkSilenceStep s average now).lastAudioLevel = s.lastAudioLevel) ∧
    (¬(average < silenceThresholdOf s.lastAudioLevel ∧ s.hasDetectedSpeech = true) →
      (checkSilenceStep s average now).lastAudioLevel =
        average * (3 / 10) + s.lastAudioLevel * (7 / 10)) := by
  have hpos : (0 : Rat) < silenceThresholdOf s.lastAudioLevel :=
    lt_of_lt_of_le (by norm_num) (le_max_left 6 _)
  have hth : silenceThresholdOf s.lastAudioLevel <
      speechThresholdOf s.lastAudioLevel := by
    unfold speechThresholdOf
    nlinarith [hpos]
  constructor
  · rintro ⟨hsil, hds⟩
    simp only [checkSilenceStep, if_neg hlvl, hds]
    simp [hsil]
  · intro hneg
    rw [not_and_or] at hneg
    simp only [checkSilenceStep, if_neg hlvl]
    rcases hneg with hsil | hds
    · rw [not_lt] at hsil
      have h1 : ¬(average < silenceThresholdOf s.lastAudioLevel) := not_lt.2 hsil
      simp [h1]
    · have hdsf : s.hasDetectedSpeech = false := by
        cases h : s.hasDetectedSpeech
        · rfl
        · exact absurd h hds
      by_cases hsp : average > speechThresholdOf s.lastAudioLevel
      · have h1 : ¬(average < silenceThresholdOf s.lastAudioLevel) :=
          not_lt.2 (le_of_lt (lt_trans hth hsp))
        simp [h1]
      · simp [hdsf, hsp]

theorem c9_baseline_update_witness :
    (checkSilenceStep ⟨100, true, false, some 0⟩ 1 0).lastAudioLevel = 100 :=
  (c9_baseline_update ⟨100, true, false, some 0⟩ 1 0 (by norm_num)).1
    ⟨by norm_num [silenceThresholdOf], rfl⟩

end ConvAgent
